import Mathlib

/-
Verification of the kitty-ui scene-graph toolkit.

The development shallowly embeds the library's core data model and
operations:

* `TNode` / `TForest` — the scene-graph tree (`Node` in `src/lib/node.ts`):
  a local `position`, a cached `absolutePosition`, the `visible` flag, an
  ordered list of children, and a flag recording whether the node
  implements the `FocusableComponent` interface (the `'isFocused' in child`
  test used by `Scene.addChild`).  The mutable `parent` back-reference is
  modelled separately by `World` below.
* `updateTransform` — `Node.updateTransform` (node.ts:41-56).
* `Renderer.renderNode` / `Renderer.renderScene` — the renderer's traversal
  (renderer module): the list of nodes whose `render` method is invoked,
  in invocation order.
* `KEY_MAPPING` / `KeyboardInputHandler.handleInput` — the escape-sequence
  decoder (`input_handler` module), with the mapping entries in the
  object-literal insertion order that the JavaScript `for...in` loop uses.
* `Comp` / `SceneSt` / `Scene.addChild` / `Scene.removeChild` /
  `Scene.setFocus` / `Scene.handleKey` — the focus engine of the `Scene`
  class (node.ts:193-395).  Component callbacks (`onFocus`/`onBlur`) are
  recorded as an event log; the focused component's own `handleKey` method
  is an explicit function parameter.
* `World` — a heap of node identities with `parent`/`children` fields, for
  `Node.addChild` / `Node.removeChild` (node.ts:21-39).
* `moveCursor` and the cursor moves issued by `Rectangle.render` /
  `Text.render` — the ANSI formatter (`KittyUtil`, kitty.ts).

Numbers are embedded as `Int` (all arithmetic involved is small-integer
exact, so JavaScript numbers behave as mathematical integers here).
-/

/-! ### Stable sort by optional tab index

`Scene.sortFocusableComponents` (node.ts:285-291) sorts with the comparator
`(a.tabIndex ?? Infinity) - (b.tabIndex ?? Infinity)`; JavaScript's
`Array.prototype.sort` is guaranteed stable, so the result is the unique
stable order that is non-decreasing in that key.  We embed it as a stable
insertion sort over the key `Option Int`, where `none` (undefined tabIndex,
i.e. `Infinity`) compares after every `some`. -/

/-- Comparator of `Scene.sortFocusableComponents`: `x` may precede `y`
(undefined tab index = `Infinity`, hence last). -/
def idxLe : Option Int → Option Int → Bool
  | _, none => true
  | none, some _ => false
  | some a, some b => a ≤ b

/-- Stable insertion of `x` in front of the first strictly larger key. -/
def insertByIdx (key : α → Option Int) (x : α) : List α → List α
  | [] => [x]
  | y :: ys => if idxLe (key x) (key y) then x :: y :: ys else y :: insertByIdx key x ys

/-- Stable sort by optional tab index (the effect of the JavaScript
`sort` call in `Scene.sortFocusableComponents`). -/
def sortByIdx (key : α → Option Int) : List α → List α
  | [] => []
  | x :: xs => insertByIdx key x (sortByIdx key xs)

/-! ### The scene-graph tree -/

mutual
/-- A scene-graph node (`Node`, node.ts:6-19): local `position`, cached
`absolutePosition`, `visible` flag, whether it implements
`FocusableComponent`, and its ordered children. -/
inductive TNode : Type where
  | mk : (Int × Int) → (Int × Int) → Bool → Bool → TForest → TNode
  deriving DecidableEq
/-- An ordered list of child nodes (`Node.children`). -/
inductive TForest : Type where
  | nil : TForest
  | cons : TNode → TForest → TForest
  deriving DecidableEq
end

/-- The node's local offset (`Node.position`). -/
def TNode.position : TNode → Int × Int
  | .mk p _ _ _ _ => p

/-- The node's cached world offset (`Node.absolutePosition`). -/
def TNode.absolutePosition : TNode → Int × Int
  | .mk _ a _ _ _ => a

/-- The node's `visible` flag (node.ts:11). -/
def TNode.visible : TNode → Bool
  | .mk _ _ v _ _ => v

/-- Whether the node implements `FocusableComponent` (the
`'isFocused' in child` test of `Scene.addChild`, node.ts:252). -/
def TNode.focusable : TNode → Bool
  | .mk _ _ _ f _ => f

/-- The node's children (`Node.children`). -/
def TNode.children : TNode → TForest
  | .mk _ _ _ _ c => c

/-- Index lookup in a forest (JavaScript `children[i]`). -/
def TForest.get? : TForest → Nat → Option TNode
  | .nil, _ => none
  | .cons c _, 0 => some c
  | .cons _ cs, i + 1 => TForest.get? cs i

mutual
/-- `Node.updateTransform` (node.ts:41-56): with a parent's absolute
position `some pa` the node's absolute position becomes `pa + position`;
at the root (`none`) it becomes `position`; then all children are updated
recursively with this node as parent.  (The `force` parameter of the
source is never read and is omitted.) -/
def updateTransform : Option (Int × Int) → TNode → TNode
  | some pa, .mk pos _ vis foc ch =>
    .mk pos (pa.1 + pos.1, pa.2 + pos.2) vis foc (updateTransformF (pa.1 + pos.1, pa.2 + pos.2) ch)
  | none, .mk pos _ vis foc ch =>
    .mk pos pos vis foc (updateTransformF pos ch)

/-- The child loop of `Node.updateTransform` (node.ts:53-55). -/
def updateTransformF : (Int × Int) → TForest → TForest
  | _, .nil => .nil
  | a, .cons c cs => .cons (updateTransform (some a) c) (updateTransformF a cs)
end

/-- The node reached from `t` by following the child indices in `p`. -/
def nodeAt : TNode → List Nat → Option TNode
  | t, [] => some t
  | t, i :: p =>
    match t.children.get? i with
    | some c => nodeAt c p
    | none => none

/-- Componentwise sum of the local offsets of all nodes on the path from
the root of `t` to the node reached by `p` (inclusive). -/
def pathSum : TNode → List Nat → Option (Int × Int)
  | t, [] => some t.position
  | t, i :: p =>
    match t.children.get? i with
    | some c =>
      match pathSum c p with
      | some s => some (t.position.1 + s.1, t.position.2 + s.2)
      | none => none
    | none => none

mutual
/-- `Renderer._renderNode` (renderer module, lines 31-39): render the node
itself, then all children, with no test of the `visible` flag.  The result
is the list of nodes whose `render` method is invoked, in order. -/
def Renderer.renderNode : TNode → List TNode
  | .mk pos a vis foc ch => .mk pos a vis foc ch :: Renderer.renderNodeF ch

/-- The child loop of `Renderer._renderNode`. -/
def Renderer.renderNodeF : TForest → List TNode
  | .nil => []
  | .cons c cs => Renderer.renderNode c ++ Renderer.renderNodeF cs
end

/-- `Renderer.renderScene` (renderer module, lines 17-29): clear the
screen, run `updateTransform` from the root, then draw via `_renderNode`.
The value is the list of drawn nodes. -/
def Renderer.renderScene (root : TNode) : List TNode :=
  Renderer.renderNode (updateTransform none root)

mutual
/-- Modelled from the spec: the "Focusable nodes" found when "the new
subtree is scanned" (spec §4.1 `attach`) — every node of the subtree whose
`focusable` flag is set, in pre-order. -/
def specFocusableDescendants : TNode → List TNode
  | .mk pos a vis foc ch =>
    (if foc then [TNode.mk pos a vis foc ch] else []) ++ specFocusableDescendantsF ch

/-- Forest version of `specFocusableDescendants`. -/
def specFocusableDescendantsF : TForest → List TNode
  | .nil => []
  | .cons c cs => specFocusableDescendants c ++ specFocusableDescendantsF cs
end

/-- The effect of `Scene.addChild` (node.ts:249-261) on the
`focusableComponents` registry, for a subtree `child` being attached: the
direct child is tested with `'isFocused' in child` and, if focusable,
pushed and the registry re-sorted (the `FocusableComponent` interface has
no `tabIndex` field, so every key is `undefined`). -/
def Scene.addChildFocusRegistry (reg : List TNode) (child : TNode) : List TNode :=
  if child.focusable then sortByIdx (fun _ => none) (reg ++ [child]) else reg

/-! ### The escape-sequence decoder -/

/-- `KEY_MAPPING` (input_handler module, lines 159-176), in the
object-literal insertion order — the order in which the JavaScript
`for...in` loop of `_handleInput` tests the entries (none of the keys is
an array index, so `for...in` uses insertion order). -/
def KEY_MAPPING : List (List Char × String) :=
  [ (['\x1b', '[', 'A'], "up"),
    (['\x1b', '[', 'B'], "down"),
    (['\x1b', '[', 'C'], "right"),
    (['\x1b', '[', 'D'], "left"),
    (['\x1b', '[', 'H'], "home"),
    (['\x1b', '[', 'F'], "end"),
    (['\x1b', '[', '3', '~'], "delete"),
    (['\x1b', '[', '5', '~'], "page_up"),
    (['\x1b', '[', '6', '~'], "page_down"),
    (['\x1b'], "escape"),
    (['\r'], "enter"),
    (['\n'], "enter"),
    (['\t'], "tab"),
    ([' '], "space"),
    (['\x7f'], "backspace"),
    (['\x1b', '[', 'Z'], "shift_tab") ]

/-- JavaScript `currentInput.startsWith(seq)`. -/
def listStartsWith : List Char → List Char → Bool
  | [], _ => true
  | _ :: _, [] => false
  | p :: ps, c :: cs => p == c && listStartsWith ps cs

/-- The inner `for (const seq in KEY_MAPPING)` loop of `_handleInput`
(input_handler module, lines 268-275): the first table entry whose
sequence is a leading segment of the remaining input. -/
def findMapping (input : List Char) : List (List Char × String) → Option (List Char × String)
  | [] => none
  | (seq, tok) :: rest =>
    if listStartsWith seq input then some (seq, tok) else findMapping input rest

/-- The `while (currentInput.length > 0)` loop of
`KeyboardInputHandler._handleInput` (input_handler module, lines 260-283),
with fuel.  Every iteration consumes at least one character (all
`KEY_MAPPING` sequences are non-empty), so fuel equal to the input length
is always sufficient. -/
def handleInputGo : Nat → List Char → List String
  | 0, _ => []
  | _, [] => []
  | fuel + 1, c :: cs =>
    match findMapping (c :: cs) KEY_MAPPING with
    | some (seq, tok) => tok :: handleInputGo fuel (List.drop seq.length (c :: cs))
    | none => String.mk [c] :: handleInputGo fuel cs

/-- `KeyboardInputHandler._handleInput`: the list of logical key tokens
dispatched for one input chunk, in order. -/
def handleInput (input : List Char) : List String :=
  handleInputGo input.length input

/-! ### The focus engine of `Scene` (node.ts:193-395)

Scene children and registry entries are modelled as `Comp` values; two
distinct objects are two values with distinct `id`s.  `tabIndex = none`
is JavaScript `undefined`. -/

/-- A component as seen by the focus engine: its identity, its optional
explicit tab index, whether it implements `FocusableComponent`, and its
absolute position (used by arrow-key navigation). -/
structure Comp where
  id : Nat
  tabIndex : Option Int
  focusable : Bool
  pos : Int × Int
  deriving DecidableEq, Inhabited

/-- An `onBlur`/`onFocus` callback invocation recorded by `setFocus`. -/
inductive FEvent where
  | blur : Comp → FEvent
  | focus : Comp → FEvent
  deriving DecidableEq

/-- The state of a `Scene`: its direct children, the sorted
`focusableComponents` registry, the `focusedComponent`, the keys that have
a registered scene-level keyboard handler, and the log of focus/blur
callback invocations. -/
structure SceneSt where
  children : List Comp
  focusableComponents : List Comp
  focusedComponent : Option Comp
  keyboardHandlers : List String
  events : List FEvent
  deriving DecidableEq

/-- `Scene.sortFocusableComponents` (node.ts:285-291). -/
def Scene.sortFocusableComponents (l : List Comp) : List Comp :=
  sortByIdx Comp.tabIndex l

/-- `Scene.setFocus` (node.ts:304-315): invoke `onBlur` on the previously
focused component, install the new one, invoke its `onFocus`. -/
def Scene.setFocus (s : SceneSt) (component : Option Comp) : SceneSt :=
  let ev1 : List FEvent :=
    match s.focusedComponent with
    | some f => [FEvent.blur f]
    | none => []
  let ev2 : List FEvent :=
    match component with
    | some c => [FEvent.focus c]
    | none => []
  { s with focusedComponent := component, events := s.events ++ ev1 ++ ev2 }

/-- `Scene.addChild` (node.ts:249-261) for a child with no previous
parent: append to `children` (`super.addChild`); if the child implements
`FocusableComponent`, push it on the registry, re-sort, and — when nothing
is focused — focus the first registry entry. -/
def Scene.addChild (s : SceneSt) (child : Comp) : SceneSt :=
  let s0 : SceneSt := { s with children := s.children ++ [child] }
  if child.focusable then
    let s1 : SceneSt :=
      { s0 with focusableComponents :=
          Scene.sortFocusableComponents (s0.focusableComponents ++ [child]) }
    if s1.focusedComponent = none then Scene.setFocus s1 s1.focusableComponents.head?
    else s1
  else s0

/-- `Scene.removeChild` (node.ts:264-283): remember whether the child was
focused, run `super.removeChild` (first occurrence removed, `false` when
absent), drop the child from the registry and re-sort, and — when the
removed child was focused — focus the first remaining registry entry or
clear focus. -/
def Scene.removeChild (s : SceneSt) (child : Comp) : SceneSt × Bool :=
  let wasFocused := s.focusedComponent = some child
  if child ∈ s.children then
    let s1 : SceneSt := { s with children := s.children.erase child }
    let s2 : SceneSt :=
      if child ∈ s1.focusableComponents then
        { s1 with focusableComponents :=
            Scene.sortFocusableComponents (s1.focusableComponents.erase child) }
      else s1
    let s3 : SceneSt :=
      if wasFocused then Scene.setFocus s2 s2.focusableComponents.head? else s2
    (s3, true)
  else (s, false)

/-- `Node.getTabbableChildren` (node.ts:59-62), the implementation
`Scene.handleKey` dispatches to: neither `Group` nor `Scene` overrides the
base method, which returns the empty array. -/
def Scene.getTabbableChildren (_s : SceneSt) : List Comp := []

/-- The candidate test and Manhattan-style distance of the arrow-key loop
in `Scene.handleKey` (node.ts:359-371): `some d` when `cpos` lies strictly
in direction `key` from `cur`, with `d` the primary-axis delta plus the
absolute cross-axis delta. -/
def arrowDistance (key : String) (cur cpos : Int × Int) : Option Int :=
  if key = "up" then
    if cpos.2 < cur.2 then some (cur.2 - cpos.2 + ((cur.1 - cpos.1).natAbs : Int)) else none
  else if key = "down" then
    if cpos.2 > cur.2 then some (cpos.2 - cur.2 + ((cur.1 - cpos.1).natAbs : Int)) else none
  else if key = "left" then
    if cpos.1 < cur.1 then some (cur.1 - cpos.1 + ((cur.2 - cpos.2).natAbs : Int)) else none
  else if key = "right" then
    if cpos.1 > cur.1 then some (cpos.1 - cur.1 + ((cur.2 - cpos.2).natAbs : Int)) else none
  else none

/-- The `for (const component of tabbable)` scan of `Scene.handleKey`
(node.ts:353-378): keep the first strictly closer candidate distinct from
the focused component. -/
def nearestScan (key : String) (f : Comp) (cur : Int × Int) :
    List Comp → Option Int → Option Comp → Option Comp
  | [], _, best => best
  | c :: rest, minD, best =>
    if c ≠ f then
      match arrowDistance key cur c.pos with
      | some d =>
        if (match minD with | none => true | some m => d < m) then
          nearestScan key f cur rest (some d) (some c)
        else nearestScan key f cur rest minD best
      | none => nearestScan key f cur rest minD best
    else nearestScan key f cur rest minD best

/-- `Scene.handleKey` (node.ts:321-394).  `compHandle f key` is the result
of the focused component's own `handleKey` method (stage 1); stage 2 is
tab/shift-tab navigation over `getTabbableChildren` and arrow-key
nearest-candidate navigation; stage 3 is the scene-level keyboard
handlers.  Returns the new state and whether the key was handled. -/
def Scene.handleKey (s : SceneSt) (key : String) (compHandle : Comp → String → Bool) :
    SceneSt × Bool :=
  let stage1 : Bool :=
    match s.focusedComponent with
    | some f => compHandle f key
    | none => false
  if stage1 then (s, true)
  else
    let nav : Option (SceneSt × Bool) :=
      if key = "tab" ∨ key = "shift_tab" then
        let tabbable := Scene.getTabbableChildren s
        if 0 < tabbable.length then
          let currentIndex : Int :=
            match s.focusedComponent with
            | some f =>
              match tabbable.indexOf? f with
              | some i => (i : Int)
              | none => -1
            | none => -1
          let nextIndex : Int :=
            if key = "tab" then (currentIndex + 1) % (tabbable.length : Int)
            else (currentIndex - 1 + (tabbable.length : Int)) % (tabbable.length : Int)
          some (Scene.setFocus s (tabbable.get? nextIndex.toNat), true)
        else none
      else if key = "up" ∨ key = "down" ∨ key = "left" ∨ key = "right" then
        let tabbable := Scene.getTabbableChildren s
        match s.focusedComponent with
        | some f =>
          match nearestScan key f f.pos tabbable none none with
          | some n => some (Scene.setFocus s (some n), true)
          | none => none
        | none => none
      else none
    match nav with
    | some r => r
    | none => if key ∈ s.keyboardHandlers then (s, true) else (s, false)

/-! ### Node identity heap for `Node.addChild` / `Node.removeChild`

`Node.addChild` and `Node.removeChild` (node.ts:21-39) mutate the `parent`
back-reference and the two `children` arrays.  We model a finite heap of
`n` node identities; `parent i` is node `i`'s back-reference, `children i`
its ordered child list. -/

/-- A heap of `n` node objects: per-node `parent` back-reference and
ordered `children` list. -/
structure World (n : Nat) where
  parent : Fin n → Option (Fin n)
  children : Fin n → List (Fin n)

/-- `Node.removeChild` (node.ts:31-39): if `c` occurs in `p`'s children,
splice out the first occurrence (`indexOf`), clear `c`'s parent and return
`true`; otherwise change nothing and return `false`. -/
def Node.removeChild (w : World n) (p c : Fin n) : World n × Bool :=
  if c ∈ w.children p then
    ({ parent := fun x => if x = c then none else w.parent x,
       children := fun x => if x = p then (w.children p).erase c else w.children x },
     true)
  else (w, false)

/-- `Node.addChild` (node.ts:21-29): if `c` already has a parent, first
`removeChild` it there; then set `c`'s parent to `p` and push `c` on `p`'s
children. -/
def Node.addChild (w : World n) (p c : Fin n) : World n :=
  let w1 : World n :=
    match w.parent c with
    | some op => (Node.removeChild w op c).1
    | none => w
  { parent := fun x => if x = c then some p else w1.parent x,
    children := fun x => if x = p then w1.children x ++ [c] else w1.children x }

/-- One tree mutation. -/
inductive TreeOp (n : Nat) where
  | add : Fin n → Fin n → TreeOp n
  | remove : Fin n → Fin n → TreeOp n
  deriving DecidableEq

/-- Apply one mutation. -/
def applyOp (w : World n) : TreeOp n → World n
  | .add p c => Node.addChild w p c
  | .remove p c => (Node.removeChild w p c).1

/-- Apply a sequence of `addChild`/`removeChild` calls, left to right. -/
def applyOps (w : World n) : List (TreeOp n) → World n
  | [] => w
  | op :: ops => applyOps (applyOp w op) ops

/-- Well-formedness of the heap: a node is in a parent's children list
exactly when its back-reference names that parent, and no children list
has duplicates. -/
def WF (w : World n) : Prop :=
  (∀ c p : Fin n, c ∈ w.children p ↔ w.parent c = some p) ∧
    ∀ p : Fin n, (w.children p).Nodup

instance (w : World n) : Decidable (WF w) := by
  unfold WF
  infer_instance

/-! ### The ANSI cursor formatter -/

/-- `KittyUtil.moveCursor` (kitty.ts:21-23): the exact escape sequence
written for `moveCursor(row, col)` — the arguments are spliced in
verbatim. -/
def moveCursor (row col : Int) : String :=
  "\x1b[" ++ toString row ++ ";" ++ toString col ++ "H"

/-- The cursor move issued by `Text.render` (components.ts:89) for a text
node whose `absolutePosition` is `(x, y)`: `moveCursor(y + 1, x + 1)`. -/
def Text.renderCursorMove (absolutePosition : Int × Int) : String :=
  moveCursor (absolutePosition.2 + 1) (absolutePosition.1 + 1)

/-- The first cursor move issued by `Rectangle.render` (components.ts:35)
for a rectangle whose `absolutePosition` is `(x, y)`:
`moveCursor(y + 1, x + 1)`. -/
def Rectangle.renderCursorMove (absolutePosition : Int × Int) : String :=
  moveCursor (absolutePosition.2 + 1) (absolutePosition.1 + 1)

/-! ### Concrete inputs used by counterexamples and witnesses -/

/-- A focusable leaf at local offset `(1, 1)`. -/
def exLeafFocusable : TNode := TNode.mk (1, 1) (1, 1) true true TForest.nil

/-- A non-focusable group holding `exLeafFocusable`: attaching it to a
scene registers nothing, although its subtree contains a focusable node. -/
def exGroup : TNode :=
  TNode.mk (0, 0) (0, 0) true false (TForest.cons exLeafFocusable TForest.nil)

/-- An invisible leaf node. -/
def exHidden : TNode := TNode.mk (1, 1) (9, 9) false false TForest.nil

/-- A visible root whose only child `exHidden` is invisible. -/
def exRoot : TNode :=
  TNode.mk (0, 0) (0, 0) true false (TForest.cons exHidden TForest.nil)

/-- A two-level tree for the transform witness: root at `(1, 2)` with one
child at local `(3, 4)` (stale cached absolute positions on purpose). -/
def exT : TNode :=
  TNode.mk (1, 2) (7, 7) true false (TForest.cons (TNode.mk (3, 4) (8, 8) true false TForest.nil) TForest.nil)

/-- Component `A` of the C4 scenario: no explicit tab index. -/
def compA : Comp := { id := 0, tabIndex := none, focusable := true, pos := (0, 0) }

/-- Component `B` of the C4 scenario: tab index `1`. -/
def compB : Comp := { id := 1, tabIndex := some 1, focusable := true, pos := (0, 1) }

/-- Component `C` of the C4 scenario: tab index `0`. -/
def compC : Comp := { id := 2, tabIndex := some 0, focusable := true, pos := (0, 2) }

/-- The C4 scenario scene: registry `[A, B, C]` in insertion order
(sorted), nothing focused, no scene-level handlers. -/
def sceneC4 : SceneSt :=
  { children := [compA, compB, compC],
    focusableComponents := Scene.sortFocusableComponents [compA, compB, compC],
    focusedComponent := none,
    keyboardHandlers := [],
    events := [] }

/-- A scene whose focused component `compA` is its only registry entry. -/
def sceneW : SceneSt :=
  { children := [compA],
    focusableComponents := [compA],
    focusedComponent := some compA,
    keyboardHandlers := [],
    events := [] }

/-- An empty scene: no children, nothing registered, nothing focused. -/
def sceneEmpty : SceneSt :=
  { children := [], focusableComponents := [], focusedComponent := none,
    keyboardHandlers := [], events := [] }

/-- The empty two-node heap: no parents, no children. -/
def worldEx : World 2 :=
  { parent := fun _ => none, children := fun _ => [] }

/-- A mutation sequence used by the C5 witness. -/
def opsEx : List (TreeOp 2) :=
  [TreeOp.add 0 1, TreeOp.add 1 0, TreeOp.remove 1 0, TreeOp.add 0 1]

/-- The focus-registry invariant of the spec: the focused component, when
set, is present in the `focusableComponents` registry. -/
def focusOk (s : SceneSt) : Prop :=
  match s.focusedComponent with
  | none => True
  | some f => f ∈ s.focusableComponents

/-! ## Helper lemmas -/

/-- Membership is preserved by stable insertion. -/
theorem mem_insertByIdx (key : α → Option Int) (x a : α) (l : List α) :
    a ∈ insertByIdx key x l ↔ a = x ∨ a ∈ l := by
  induction l with
  | nil => simp [insertByIdx]
  | cons y ys ih =>
    simp only [insertByIdx]
    split
    · simp [List.mem_cons]
    · simp only [List.mem_cons, ih]
      tauto

/-- The sort of `Scene.sortFocusableComponents` is a permutation in the
membership sense. -/
theorem mem_sortByIdx (key : α → Option Int) (a : α) (l : List α) :
    a ∈ sortByIdx key l ↔ a ∈ l := by
  induction l with
  | nil => simp [sortByIdx]
  | cons x xs ih =>
    simp [sortByIdx, mem_insertByIdx, ih]

/-- `head?` of a non-empty list is its `headI`. -/
theorem head?_eq_headI_of_ne_nil [Inhabited α] (l : List α) (h : l ≠ []) :
    l.head? = some l.headI := by
  cases l with
  | nil => exact absurd rfl h
  | cons a t => rfl

/-- A successful `head?` lookup is a member. -/
theorem mem_of_head?_eq_some {l : List α} (h : l.head? = some a) : a ∈ l := by
  cases l with
  | nil => simp at h
  | cons x t =>
    simp only [List.head?] at h
    simp [← Option.some.inj h]

/-- Transforming a forest transforms each child pointwise. -/
theorem updateTransformF_get? : ∀ (ch : TForest) (a : Int × Int) (i : Nat),
    (updateTransformF a ch).get? i = (ch.get? i).map (fun c => updateTransform (some a) c)
  | .nil, _, _ => rfl
  | .cons _ _, _, 0 => rfl
  | .cons _ cs, a, i + 1 => updateTransformF_get? cs a i

/-- In a subtree transformed with parent absolute position `b`, the node
reached by path `p` carries absolute position `b` plus the sum of local
offsets along `p`. -/
theorem nodeAt_updateTransform_some : ∀ (p : List Nat) (t : TNode) (b : Int × Int) (nd : TNode),
    nodeAt (updateTransform (some b) t) p = some nd →
    ∃ s, pathSum t p = some s ∧ nd.absolutePosition = (b.1 + s.1, b.2 + s.2) := by
  intro p
  induction p with
  | nil =>
    intro t b nd h
    cases t with
    | mk pos a0 vis foc ch =>
      simp only [updateTransform, nodeAt, Option.some.injEq] at h
      exact ⟨pos, rfl, by rw [← h]; rfl⟩
  | cons i rest ih =>
    intro t b nd h
    cases t with
    | mk pos a0 vis foc ch =>
      simp only [updateTransform, nodeAt, TNode.children] at h
      rw [updateTransformF_get?] at h
      cases hg : ch.get? i with
      | none => rw [hg] at h; simp at h
      | some c =>
        rw [hg] at h
        simp only [Option.map_some'] at h
        obtain ⟨s, hs, habs⟩ := ih c (b.1 + pos.1, b.2 + pos.2) nd h
        refine ⟨(pos.1 + s.1, pos.2 + s.2), ?_, ?_⟩
        · simp only [pathSum, TNode.children, hg, hs, TNode.position]
        · rw [habs]
          simp only [Prod.mk.injEq]
          constructor <;> ring

/-! ## C1 — transform propagation -/

/-- C1: after `updateTransform` is run on the root, every node's absolute
position equals the componentwise sum of the local offsets of all nodes on
the path from the root to that node, inclusive. -/
theorem updateTransform_pathSum (t : TNode) (p : List Nat) (nd : TNode)
    (h : nodeAt (updateTransform none t) p = some nd) :
    pathSum t p = some nd.absolutePosition := by
  cases t with
  | mk pos a0 vis foc ch =>
    cases p with
    | nil =>
      simp only [updateTransform, nodeAt, Option.some.injEq] at h
      rw [← h]
      rfl
    | cons i rest =>
      simp only [updateTransform, nodeAt, TNode.children] at h
      rw [updateTransformF_get?] at h
      cases hg : ch.get? i with
      | none => rw [hg] at h; simp at h
      | some c =>
        rw [hg] at h
        simp only [Option.map_some'] at h
        obtain ⟨s, hs, habs⟩ := nodeAt_updateTransform_some rest c pos nd h
        simp only [pathSum, TNode.children, hg, hs, TNode.position, habs]

/-- Witness for C1 at a concrete two-level tree and the path `[0]`. -/
theorem updateTransform_pathSum_witness :
    nodeAt (updateTransform none exT) [0] = some (TNode.mk (3, 4) (4, 6) true false TForest.nil) ∧
    pathSum exT [0] = some (TNode.mk (3, 4) (4, 6) true false TForest.nil).absolutePosition :=
  ⟨rfl, updateTransform_pathSum exT [0] (TNode.mk (3, 4) (4, 6) true false TForest.nil) rfl⟩

/-! ## C2 — the renderer ignores the `visible` flag -/

/-- C2 (failing input): rendering a visible root with an invisible child
draws both nodes — `Renderer._renderNode` never consults `visible`, so the
invisible child is drawn rather than skipped. -/
theorem renderScene_draws_invisible :
    Renderer.renderScene exRoot =
      [TNode.mk (0, 0) (0, 0) true false
          (TForest.cons (TNode.mk (1, 1) (1, 1) false false TForest.nil) TForest.nil),
        TNode.mk (1, 1) (1, 1) false false TForest.nil] ∧
    (Renderer.renderScene exRoot).any (fun nd => !nd.visible) = true :=
  ⟨rfl, rfl⟩

/-! ## C3 — the decoder's "escape" entry shadows `ESC [ Z` -/

/-- C3 (failing input): `ESC [ Z` is in the mapping table (mapped to
`"shift_tab"`), yet decoding the chunk `ESC [ Z` emits the token of its
shorter mapped prefix `ESC` followed by the literals `[` and `Z`, because
the `"\x1b"` entry precedes the `"\x1b[Z"` entry in the first-match loop.
Chunks `ESC [ A` and `"ab"` decode as the claim states. -/
theorem handleInput_escape_shadows_shift_tab :
    (['\x1b', '[', 'Z'], "shift_tab") ∈ KEY_MAPPING ∧
    handleInput ['\x1b', '[', 'Z'] = ["escape", "[", "Z"] ∧
    handleInput ['\x1b', '[', 'A'] = ["up"] ∧
    handleInput ['a', 'b'] = ["a", "b"] :=
  ⟨by decide, rfl, rfl, rfl⟩

/-! ## C4 — the sort works, but tab dispatch consults the empty
`getTabbableChildren` -/

/-- C4 (scenario evaluation): the registry `[A(∅), B(1), C(0)]` sorts to
`[C, B, A]` as claimed, but dispatching `"tab"` with nothing focused
leaves focus unset and reports the key unhandled, because `Scene.handleKey`
navigates over `getTabbableChildren()` — the never-overridden `Node` base
method returning the empty list — instead of the sorted registry. -/
theorem sortFocusableComponents_handleKey_tab :
    Scene.sortFocusableComponents [compA, compB, compC] = [compC, compB, compA] ∧
    (Scene.handleKey sceneC4 "tab" (fun _ _ => false)).1.focusedComponent = none ∧
    (Scene.handleKey sceneC4 "tab" (fun _ _ => false)).2 = false :=
  ⟨rfl, rfl, rfl⟩

/-! ## C6 — only the direct child is registered -/

/-- C6 (counterexample): attaching a non-focusable group whose subtree
contains the focusable node `exLeafFocusable` registers nothing — the
reachable focusable descendant is not in the resulting registry. -/
theorem addChildFocusRegistry_misses_descendant :
    exLeafFocusable ∈ specFocusableDescendants exGroup ∧
    exLeafFocusable ∉ Scene.addChildFocusRegistry [] exGroup := by
  constructor
  · decide
  · decide

/-- C6 (amended): `Scene.addChild` examines only the direct child — any
member of the updated registry was already registered or is the attached
child itself, and the attached child is registered when it is itself
focusable. -/
theorem addChildFocusRegistry_only_direct_child (reg : List TNode) (child x : TNode)
    (hx : x ∈ Scene.addChildFocusRegistry reg child) (hf : child.focusable = true) :
    (x ∈ reg ∨ x = child) ∧ child ∈ Scene.addChildFocusRegistry reg child := by
  unfold Scene.addChildFocusRegistry at hx ⊢
  rw [hf] at hx ⊢
  simp only [if_true, mem_sortByIdx, List.mem_append, List.mem_singleton] at hx
  refine ⟨hx, ?_⟩
  simp [mem_sortByIdx]

/-- Witness for C6's amended theorem at the concrete focusable leaf. -/
theorem addChildFocusRegistry_only_direct_child_witness :
    (exLeafFocusable ∈ Scene.addChildFocusRegistry [] exLeafFocusable) ∧
    exLeafFocusable.focusable = true ∧
    ((exLeafFocusable ∈ ([] : List TNode) ∨ exLeafFocusable = exLeafFocusable) ∧
      exLeafFocusable ∈ Scene.addChildFocusRegistry [] exLeafFocusable) :=
  ⟨by decide, rfl,
    addChildFocusRegistry_only_direct_child [] exLeafFocusable exLeafFocusable (by decide) rfl⟩

/-! ## C8 — the +1 translation happens at the call sites, not in
`moveCursor` -/

/-- C8 (counterexample): `moveCursor(0, 0)` emits `ESC [ 0 ; 0 H`, not the
`ESC [ 1 ; 1 H` the claim requires of the formatter. -/
theorem moveCursor_no_translation :
    moveCursor 0 0 = "\x1b[0;0H" ∧ moveCursor 0 0 ≠ "\x1b[1;1H" := by
  constructor
  · rfl
  · decide

/-- C8 (amended): `KittyUtil.moveCursor` splices its arguments into the
ANSI cursor-position sequence verbatim; the `+1` translation from
0-indexed model coordinates to 1-indexed wire coordinates is performed by
the callers (`Rectangle.render`, `Text.render`), so a component at
absolute position `(x, y)` does emit `ESC [ (y+1) ; (x+1) H`. -/
theorem moveCursor_translation_at_callsites (row col x y : Int) :
    moveCursor row col = "\x1b[" ++ toString row ++ ";" ++ toString col ++ "H" ∧
    Text.renderCursorMove (x, y) = "\x1b[" ++ toString (y + 1) ++ ";" ++ toString (x + 1) ++ "H" ∧
    Rectangle.renderCursorMove (x, y)
        = "\x1b[" ++ toString (y + 1) ++ ";" ++ toString (x + 1) ++ "H" :=
  ⟨rfl, rfl, rfl⟩

/-! ## C9 — removing an absent child is a fully reported no-op -/

/-- C9: when `child` is not among `parent`'s children, `removeChild`
returns `false` and the heap — every parent reference and every children
list — is exactly as before. -/
theorem removeChild_not_found (n : Nat) (w : World n) (p c : Fin n)
    (h : c ∉ w.children p) :
    Node.removeChild w p c = (w, false) := by
  unfold Node.removeChild
  simp [h]

/-- Witness for C9 on the concrete empty two-node heap. -/
theorem removeChild_not_found_witness :
    ((1 : Fin 2) ∉ worldEx.children 0) ∧ Node.removeChild worldEx 0 1 = (worldEx, false) :=
  ⟨by decide, removeChild_not_found 2 worldEx 0 1 (by decide)⟩

/-! ## C5 — single-parent invariant of `addChild`/`removeChild` -/

/-- A node with no parent back-reference is in no children list. -/
theorem not_mem_children_of_parent_none (w : World n) (c : Fin n) (h : WF w)
    (hp : w.parent c = none) (q : Fin n) : c ∉ w.children q := by
  intro hmem
  have hq := (h.1 c q).1 hmem
  rw [hp] at hq
  exact Option.noConfusion hq

/-- `Node.removeChild` preserves well-formedness. -/
theorem removeChild_WF (w : World n) (p c : Fin n) (h : WF w) :
    WF (Node.removeChild w p c).1 := by
  unfold Node.removeChild
  by_cases hmem : c ∈ w.children p
  · obtain ⟨hiff, hnd⟩ := h
    simp only [hmem, if_true]
    refine ⟨?_, ?_⟩
    · intro d q
      by_cases hd : d = c
      · by_cases hq : q = p
        · simp [hd, hq, (hnd p).not_mem_erase]
        · simp only [hd, hq, if_false, if_pos rfl]
          constructor
          · intro hcq
            have h1 := (hiff c q).1 hcq
            have h2 := (hiff c p).1 hmem
            rw [h1] at h2
            exact absurd (Option.some.inj h2) hq
          · intro hnone
            exact Option.noConfusion hnone
      · by_cases hq : q = p
        · simpa [hq, hd, List.mem_erase_of_ne hd] using hiff d p
        · simp only [if_neg hd, if_neg hq]
          exact hiff d q
    · intro q
      by_cases hq : q = p
      · simp only [hq, if_pos rfl]
        exact (hnd p).erase c
      · simp only [if_neg hq]
        exact hnd q
  · simp only [hmem, if_false]
    exact h

/-- After a successful `removeChild`, the removed child's back-reference
is cleared. -/
theorem removeChild_parent_self (w : World n) (p c : Fin n) (hmem : c ∈ w.children p) :
    (Node.removeChild w p c).1.parent c = none := by
  unfold Node.removeChild
  simp [hmem]

/-- The reattachment step of `Node.addChild` (setting the back-reference
and pushing on the new parent's children), starting from a heap in which
the child is detached. -/
theorem addChild_step (w1 : World n) (p c : Fin n) (h : WF w1) (hpar : w1.parent c = none) :
    WF (World.mk (fun x => if x = c then some p else w1.parent x)
        (fun x => if x = p then w1.children x ++ [c] else w1.children x)) ∧
    (World.mk (fun x => if x = c then some p else w1.parent x)
        (fun x => if x = p then w1.children x ++ [c] else w1.children x)).parent c = some p ∧
    List.count c ((World.mk (fun x => if x = c then some p else w1.parent x)
        (fun x => if x = p then w1.children x ++ [c] else w1.children x)).children p) = 1 ∧
    ∀ q, q ≠ p → c ∉ (World.mk (fun x => if x = c then some p else w1.parent x)
        (fun x => if x = p then w1.children x ++ [c] else w1.children x)).children q := by
  obtain ⟨hiff, hnd⟩ := h
  have hnotmem : ∀ q, c ∉ w1.children q :=
    not_mem_children_of_parent_none w1 c ⟨hiff, hnd⟩ hpar
  refine ⟨⟨?_, ?_⟩, by simp, ?_, ?_⟩
  · intro d q
    show (d ∈ if q = p then w1.children q ++ [c] else w1.children q) ↔
      (if d = c then some p else w1.parent d) = some q
    by_cases hd : d = c
    · by_cases hq : q = p
      · simp [hd, hq, hnotmem p]
      · simp [hd, hq, hnotmem q, Ne.symm hq]
    · by_cases hq : q = p
      · simpa [hq, hd] using hiff d p
      · simp only [if_neg hd, if_neg hq]
        exact hiff d q
  · intro q
    show ((if q = p then w1.children q ++ [c] else w1.children q)).Nodup
    by_cases hq : q = p
    · simp only [hq, if_pos rfl]
      exact (hnd p).append (List.nodup_singleton c) (List.disjoint_singleton.2 (hnotmem p))
    · simp only [if_neg hq]
      exact hnd q
  · show List.count c (if p = p then w1.children p ++ [c] else w1.children p) = 1
    simp [List.count_append, List.count_eq_zero.2 (hnotmem p)]
  · intro q hq
    show c ∉ (if q = p then w1.children q ++ [c] else w1.children q)
    simp only [if_neg hq]
    exact hnotmem q

/-- `Node.addChild` preserves well-formedness, sets the child's
back-reference to the new parent, leaves exactly one occurrence in the new
parent's children and none anywhere else. -/
theorem addChild_props (w : World n) (p c : Fin n) (h : WF w) :
    WF (Node.addChild w p c) ∧
    (Node.addChild w p c).parent c = some p ∧
    List.count c ((Node.addChild w p c).children p) = 1 ∧
    ∀ q, q ≠ p → c ∉ (Node.addChild w p c).children q := by
  cases hpc : w.parent c with
  | none =>
    have e : Node.addChild w p c =
        World.mk (fun x => if x = c then some p else w.parent x)
          (fun x => if x = p then w.children x ++ [c] else w.children x) := by
      unfold Node.addChild
      rw [hpc]
    rw [e]
    exact addChild_step w p c h hpc
  | some op =>
    have hmem : c ∈ w.children op := (h.1 c op).2 hpc
    have hwf1 : WF (Node.removeChild w op c).1 := removeChild_WF w op c h
    have hpar1 : (Node.removeChild w op c).1.parent c = none :=
      removeChild_parent_self w op c hmem
    have e : Node.addChild w p c =
        World.mk (fun x => if x = c then some p else (Node.removeChild w op c).1.parent x)
          (fun x => if x = p then (Node.removeChild w op c).1.children x ++ [c]
            else (Node.removeChild w op c).1.children x) := by
      unfold Node.addChild
      rw [hpc]
    rw [e]
    exact addChild_step (Node.removeChild w op c).1 p c hwf1 hpar1

/-- Any sequence of `addChild`/`removeChild` calls preserves
well-formedness. -/
theorem applyOps_WF (ops : List (TreeOp n)) (w : World n) (h : WF w) :
    WF (applyOps w ops) := by
  induction ops generalizing w with
  | nil => exact h
  | cons op ops ih =>
    cases op with
    | add p c => exact ih _ (addChild_props w p c h).1
    | remove p c => exact ih _ (removeChild_WF w p c h)

/-- C5: from a well-formed heap, every sequence of `addChild`/`removeChild`
operations keeps the heap well-formed (each node is in the children list
of exactly the parent its back-reference names, with no duplicates — so
at most one parent); and `addChild(p, c)` detaches `c` from any old
parent, leaving exactly one occurrence of `c` under `p`, none under any
other parent, and `c`'s back-reference at `p` — with no error raised
(`addChild` is total). -/
theorem addChild_removeChild_wf (w : World n) (ops : List (TreeOp n))
    (p c q : Fin n) (h : WF w) (hq : q ≠ p) :
    WF (applyOps w ops) ∧
    (Node.addChild w p c).parent c = some p ∧
    List.count c ((Node.addChild w p c).children p) = 1 ∧
    c ∉ (Node.addChild w p c).children q :=
  ⟨applyOps_WF ops w h, (addChild_props w p c h).2.1, (addChild_props w p c h).2.2.1,
    (addChild_props w p c h).2.2.2 q hq⟩

/-- Witness for C5 on the concrete two-node heap and a concrete operation
sequence that reparents node `1` twice. -/
theorem addChild_removeChild_wf_witness :
    WF worldEx ∧ (1 : Fin 2) ≠ 0 ∧
    (WF (applyOps worldEx opsEx) ∧
      (Node.addChild worldEx 0 1).parent 1 = some 0 ∧
      List.count 1 ((Node.addChild worldEx 0 1).children 0) = 1 ∧
      (1 : Fin 2) ∉ (Node.addChild worldEx 0 1).children 1) :=
  ⟨by decide, by decide, addChild_removeChild_wf worldEx opsEx 0 1 1 (by decide) (by decide)⟩

/-! ## C7 — focus is never dangling after `Scene.removeChild` -/

/-- Focusing the head of the registry preserves the focus invariant. -/
theorem setFocus_head_focusOk (t : SceneSt) :
    focusOk (Scene.setFocus t t.focusableComponents.head?) := by
  unfold focusOk Scene.setFocus
  cases hh : t.focusableComponents.head? with
  | none => simp [hh]
  | some f =>
    simp only [hh]
    exact mem_of_head?_eq_some hh

/-- C7: if the focused component, when set, is registered, then after any
`Scene.removeChild` call the focused component is still either unset or
present in the registry — removing the focused child moves focus to a
remaining registered component or clears it. -/
theorem removeChild_focusOk (s : SceneSt) (child : Comp) (h : focusOk s) :
    focusOk (Scene.removeChild s child).1 := by
  unfold Scene.removeChild
  by_cases hmem : child ∈ s.children
  · rw [if_pos hmem]
    dsimp only
    by_cases hw : s.focusedComponent = some child
    · rw [if_pos hw]
      exact setFocus_head_focusOk _
    · rw [if_neg hw]
      by_cases hr : child ∈ s.focusableComponents
      · rw [if_pos hr]
        unfold focusOk at h ⊢
        cases hf : s.focusedComponent with
        | none => trivial
        | some f =>
          rw [hf] at h
          dsimp only at h ⊢
          have hfc : f ≠ child := by
            intro he
            rw [he] at hf
            exact hw hf
          rw [Scene.sortFocusableComponents, mem_sortByIdx]
          exact (List.mem_erase_of_ne hfc).2 h
      · rw [if_neg hr]
        exact h
  · rw [if_neg hmem]
    exact h

/-- Witness for C7: removing the focused sole registry entry clears
focus (which satisfies the invariant). -/
theorem removeChild_focusOk_witness :
    focusOk sceneW ∧ focusOk (Scene.removeChild sceneW compA).1 :=
  ⟨by simp [focusOk, sceneW], removeChild_focusOk sceneW compA (by simp [focusOk, sceneW])⟩

/-! ## C10 — adding a focusable child to an unfocused scene focuses the
first registry entry, and only removal of the focused component or an
explicit `setFocus(null)` can clear focus -/

/-- `Scene.handleKey` never changes the focused component: stage 1 leaves
the state untouched, stage 2's tab navigation sees the empty
`getTabbableChildren()` and its arrow navigation scans the same empty
list, and stage 3 only invokes handlers. -/
theorem handleKey_preserves_focus (t : SceneSt) (key : String)
    (compHandle : Comp → String → Bool) :
    (Scene.handleKey t key compHandle).1.focusedComponent = t.focusedComponent := by
  unfold Scene.handleKey
  dsimp only
  by_cases h1 : (match t.focusedComponent with
    | some f => compHandle f key
    | none => false) = true
  · rw [if_pos h1]
  · rw [if_neg h1]
    by_cases hk1 : key = "tab" ∨ key = "shift_tab"
    · rw [if_pos hk1]
      simp only [Scene.getTabbableChildren, List.length_nil, lt_self_iff_false, if_false]
      by_cases hk : key ∈ t.keyboardHandlers <;> simp [hk]
    · rw [if_neg hk1]
      by_cases hk2 : key = "up" ∨ key = "down" ∨ key = "left" ∨ key = "right"
      · rw [if_pos hk2]
        simp only [Scene.getTabbableChildren]
        cases hfo : t.focusedComponent with
        | none =>
          by_cases hk : key ∈ t.keyboardHandlers <;> simp [hk, hfo]
        | some f =>
          simp only [nearestScan]
          by_cases hk : key ∈ t.keyboardHandlers <;> simp [hk, hfo]
      · rw [if_neg hk2]
        by_cases hk : key ∈ t.keyboardHandlers <;> simp [hk]

/-- C10: adding a focusable child to a scene with nothing focused
immediately focuses the first entry of the sorted registry and invokes its
focus callback; and a non-null focus survives every other operation —
adding children, removing a non-focused child, and key dispatch never
clear it, while `setFocus` installs exactly its argument — so only
removing the focused component or an explicit `setFocus(null)` can reset
focus to null. -/
theorem addChild_autofocus (s t : SceneSt) (child d : Comp) (key : String)
    (compHandle : Comp → String → Bool) (c : Comp)
    (h0 : s.focusedComponent = none) (hf : child.focusable = true)
    (h1 : t.focusedComponent ≠ none) (h2 : t.focusedComponent ≠ some d) :
    (Scene.addChild s child).focusedComponent
        = some (Scene.sortFocusableComponents (s.focusableComponents ++ [child])).headI ∧
    (Scene.addChild s child).events
        = s.events
          ++ [FEvent.focus (Scene.sortFocusableComponents (s.focusableComponents ++ [child])).headI] ∧
    (Scene.addChild t d).focusedComponent ≠ none ∧
    ((Scene.removeChild t d).1).focusedComponent ≠ none ∧
    (Scene.handleKey t key compHandle).1.focusedComponent = t.focusedComponent ∧
    (Scene.setFocus t (some c)).focusedComponent = some c := by
  have hne : Scene.sortFocusableComponents (s.focusableComponents ++ [child]) ≠ [] := by
    intro he
    have hm : child ∈ Scene.sortFocusableComponents (s.focusableComponents ++ [child]) := by
      rw [Scene.sortFocusableComponents, mem_sortByIdx]
      simp
    rw [he] at hm
    simp at hm
  have hh := head?_eq_headI_of_ne_nil _ hne
  have e1 : Scene.addChild s child =
      Scene.setFocus
        { s with
            children := s.children ++ [child],
            focusableComponents := Scene.sortFocusableComponents (s.focusableComponents ++ [child]) }
        (Scene.sortFocusableComponents (s.focusableComponents ++ [child])).head? := by
    unfold Scene.addChild
    dsimp only
    rw [if_pos hf, if_pos h0]
  refine ⟨?_, ?_, ?_, ?_, handleKey_preserves_focus t key compHandle, rfl⟩
  · rw [e1]
    unfold Scene.setFocus
    dsimp only
    exact hh
  · rw [e1]
    unfold Scene.setFocus
    dsimp only
    rw [h0, hh]
    simp
  · unfold Scene.addChild
    dsimp only
    by_cases hdf : d.focusable = true
    · rw [if_pos hdf, if_neg h1]
      exact h1
    · rw [if_neg hdf]
      exact h1
  · unfold Scene.removeChild
    dsimp only
    by_cases hm : d ∈ t.children
    · rw [if_pos hm]
      dsimp only
      rw [if_neg h2]
      by_cases hr : d ∈ t.focusableComponents
      · rw [if_pos hr]
        exact h1
      · rw [if_neg hr]
        exact h1
    · rw [if_neg hm]
      exact h1

/-- Witness for C10: adding `compA` to the empty scene focuses it, and a
scene focused on `compA` keeps a non-null focus across the other
operations. -/
theorem addChild_autofocus_witness :
    sceneEmpty.focusedComponent = none ∧ compA.focusable = true ∧
    sceneW.focusedComponent ≠ none ∧ sceneW.focusedComponent ≠ some compB ∧
    ((Scene.addChild sceneEmpty compA).focusedComponent
        = some (Scene.sortFocusableComponents (sceneEmpty.focusableComponents ++ [compA])).headI ∧
      (Scene.addChild sceneEmpty compA).events
        = sceneEmpty.events
          ++ [FEvent.focus
              (Scene.sortFocusableComponents (sceneEmpty.focusableComponents ++ [compA])).headI] ∧
      (Scene.addChild sceneW compB).focusedComponent ≠ none ∧
      ((Scene.removeChild sceneW compB).1).focusedComponent ≠ none ∧
      (Scene.handleKey sceneW "tab" (fun _ _ => false)).1.focusedComponent
        = sceneW.focusedComponent ∧
      (Scene.setFocus sceneW (some compC)).focusedComponent = some compC) :=
  ⟨rfl, rfl, by decide, by decide,
    addChild_autofocus sceneEmpty sceneW compA compB "tab" (fun _ _ => false) compC rfl rfl
      (by decide) (by decide)⟩
